import Mathlib

/-!
Formal model of the Cloud-based-attendance door pipeline.

Shallow embedding of the core logic of `camera_monitor.py`
(DirectionTracker, the cooldown gate of post_event) and of
`face_recognition_service.py` (match_score, detect_liveness, and the
best-match loop shared by the identify-face and identify-group endpoints).

External collaborators (OpenCV detection and embedding extraction, HTTP,
MongoDB, Cloudinary) are modelled as inputs: an image is represented by
the data the core logic reads from it (its Laplacian variance, the
detected faces and their embeddings).  Python floats are modelled as
exact rationals (for the tracker and cooldown arithmetic) or reals (for
the similarity computation, which involves square roots).
-/

/-! ### camera_monitor.py constants -/

/-- Tuning constant DIRECTION_FRAMES = 3 from camera_monitor.py: number of
positions tracked for direction (deque capacity). -/
def DIRECTION_FRAMES : ℕ := 3

/-- Tuning constant COOLDOWN_SECS = 10 from camera_monitor.py: minimum
seconds between same event for same student. -/
def COOLDOWN_SECS : ℚ := 10

/-- Door event type: the strings ENTRY / EXIT used throughout
camera_monitor.py. -/
inductive Direction where
  | ENTRY
  | EXIT
deriving DecidableEq

/-! ### DirectionTracker (camera_monitor.py lines 101-131) -/

/-- Append to a deque with maxlen K: the new element goes on the right and
elements are evicted from the left so that at most K remain. -/
def appendBounded (K : ℕ) (w : List ℚ) (x : ℚ) : List ℚ :=
  if (w ++ [x]).length > K then (w ++ [x]).drop ((w ++ [x]).length - K) else w ++ [x]

/-- One step of DirectionTracker.update on a single identity window.
Mirrors camera_monitor.py lines 112-131: append the normalized position,
return None while fewer than K samples are buffered, return None without
clearing when the newest-minus-oldest displacement is below 0.12, and
otherwise clear the window and classify by the sign of the displacement,
inverted by the flip flag. -/
def stepWindow (K : ℕ) (flip : Bool) (prev : List ℚ) (normalized : ℚ) :
    Option Direction × List ℚ :=
  let w := appendBounded K prev normalized
  if w.length < K then (none, w)
  else
    let delta := w.getLastD 0 - w.headD 0
    if |delta| < 0.12 then (none, w)
    else
      let moving_right : Bool := decide (delta > 0)
      let mr := if flip then !moving_right else moving_right
      (if mr then some Direction.ENTRY else some Direction.EXIT, [])

/-- DirectionTracker state: per-identity position windows (a defaultdict of
deques in the source, modelled as a total function defaulting to the empty
window) plus the orientation flip flag. -/
structure DirectionTracker where
  positions : String → List ℚ
  flip : Bool

/-- DirectionTracker.update from camera_monitor.py lines 112-131: normalize
the face center by the frame width and run one window step on that
identity, leaving every other identity window untouched. -/
def DirectionTracker.update (t : DirectionTracker) (student_id : String)
    (face_center_x frame_width : ℚ) : Option Direction × DirectionTracker :=
  let normalized := face_center_x / frame_width
  let r := stepWindow DIRECTION_FRAMES t.flip (t.positions student_id) normalized
  (r.1, ⟨fun id => if id = student_id then r.2 else t.positions id, t.flip⟩)

/-- A freshly constructed DirectionTracker: every identity window empty. -/
def freshTracker (flip : Bool) : DirectionTracker :=
  ⟨fun _ => [], flip⟩

/-- Feed a sequence of face centers (at a fixed frame width) for one
identity through DirectionTracker.update, collecting the outputs. -/
def runTracker : DirectionTracker → String → ℚ → List ℚ → List (Option Direction)
  | _, _, _, [] => []
  | t, id, width, cx :: rest =>
    (t.update id cx width).1 :: runTracker (t.update id cx width).2 id width rest

/-- Feed a sequence of already-normalized positions through stepWindow,
collecting the outputs and the final window. -/
def runSteps (K : ℕ) (flip : Bool) : List ℚ → List ℚ → List (Option Direction) × List ℚ
  | w, [] => ([], w)
  | w, x :: xs =>
    ((stepWindow K flip w x).1 :: (runSteps K flip (stepWindow K flip w x).2 xs).1,
     (runSteps K flip (stepWindow K flip w x).2 xs).2)

/-! ### post_event cooldown gate (camera_monitor.py lines 138-149) -/

/-- The cooldown gate of post_event, camera_monitor.py lines 140-149: the
global last_event_time dict maps a student id to the last emitted
(event type, timestamp).  The event is suppressed (first component false,
dict unchanged) exactly when the stored record has the same event type and
lies within COOLDOWN_SECS; otherwise the record is overwritten and the
event is emitted (the network dispatch itself is external). -/
def post_event (last_event_time : String → Option (Direction × ℚ))
    (student_id : String) (event_type : Direction) (now : ℚ) :
    Bool × (String → Option (Direction × ℚ)) :=
  match last_event_time student_id with
  | some last =>
      if last.1 = event_type ∧ now - last.2 < COOLDOWN_SECS then
        (false, last_event_time)
      else
        (true, fun id => if id = student_id then some (event_type, now) else last_event_time id)
  | none =>
      (true, fun id => if id = student_id then some (event_type, now) else last_event_time id)

/-! ### face_recognition_service.py: match_score and the endpoint loops -/

noncomputable section

/-- COSINE_THRESHOLD = 0.363 from face_recognition_service.py (the OpenCV
default cosine threshold for SFace). -/
def COSINE_THRESHOLD : ℝ := 0.363

/-- Sum of squares of a vector (the argument of np.linalg.norm). -/
def sumsq (v : List ℝ) : ℝ := (v.map fun x => x * x).sum

/-- np.linalg.norm: the euclidean norm of a vector. -/
def l2norm (v : List ℝ) : ℝ := Real.sqrt (sumsq v)

/-- np.dot of two equal-length vectors. -/
def dotp (v w : List ℝ) : ℝ := (List.zipWith (fun a b => a * b) v w).sum

/-- The dict returned by match_score. -/
structure ScoreResult where
  cosine_score : ℝ
  l2_distance : ℝ
  is_match : Bool
  confidence : ℝ

/-- match_score from face_recognition_service.py lines 177-205: if either
embedding has zero norm, return cosine 0.0, l2 99.0, no match, confidence
0.0; otherwise return the dot product of the two L2-normalised vectors as
both cosine_score and confidence, the L2 distance of the raw vectors, and
is_match set by the inclusive comparison cosine_score >= COSINE_THRESHOLD. -/
def match_score (emb1 emb2 : List ℝ) : ScoreResult :=
  if l2norm emb1 = 0 ∨ l2norm emb2 = 0 then
    ⟨0, 99, false, 0⟩
  else
    ⟨dotp (emb1.map fun x => x / l2norm emb1) (emb2.map fun x => x / l2norm emb2),
     l2norm (List.zipWith (fun a b => a - b) emb1 emb2),
     decide (dotp (emb1.map fun x => x / l2norm emb1) (emb2.map fun x => x / l2norm emb2) ≥
       COSINE_THRESHOLD),
     dotp (emb1.map fun x => x / l2norm emb1) (emb2.map fun x => x / l2norm emb2)⟩

/-- Cosine similarity of two vectors written with a single division; a
lemma below shows match_score computes exactly this in its non-zero
branch. -/
def cosineSim (v w : List ℝ) : ℝ := dotp v w / (l2norm v * l2norm w)

/-- One entry of the pre-parsed db_embeddings pool in the identify
endpoints: user id, display name and stored reference embedding. -/
structure DBUser where
  user_id : String
  name : String
  embedding : List ℝ

/-- One detected face as the identify-group loop consumes it: the SFace
embedding extracted from the aligned crop, and the bounding box. -/
structure Probe where
  embedding : List ℝ
  box : List ℝ

/-- One entry of the matches list returned by identify_group_endpoint. -/
structure MatchRecord where
  userId : String
  userName : String
  confidence : ℝ
  box : List ℝ

/-- The body of the inner candidate loop shared by identify_face_endpoint
(lines 452-466) and identify_group_endpoint (lines 625-629): a candidate
displaces the running best only when is_match holds and its cosine score
is strictly greater than the running best score. -/
def bestStep (emb : List ℝ) (acc : Option DBUser × ℝ) (db_user : DBUser) :
    Option DBUser × ℝ :=
  if (match_score db_user.embedding emb).is_match = true ∧
      (match_score db_user.embedding emb).cosine_score > acc.2 then
    (some db_user, (match_score db_user.embedding emb).cosine_score)
  else acc

/-- The full best-candidate scan for one probe: fold the candidate loop
over the pool starting from best = None, best_score = 0. -/
def findBest (db_embeddings : List DBUser) (emb : List ℝ) : Option DBUser × ℝ :=
  db_embeddings.foldl (bestStep emb) (none, 0)

/-- The per-face loop of identify_group_endpoint, lines 618-645: each
detected face is independently scanned against the pool and contributes
one match record exactly when a best match was found. -/
def identify_group (db_embeddings : List DBUser) : List Probe → List MatchRecord
  | [] => []
  | p :: ps =>
    match findBest db_embeddings p.embedding with
    | (some u, s) => ⟨u.user_id, u.name, s, p.box⟩ :: identify_group db_embeddings ps
    | (none, _) => identify_group db_embeddings ps

/-- detect_liveness from face_recognition_service.py lines 208-226, as a
function of the data it reads from the image: the Laplacian variance of
the grayscale image and the YuNet confidence of the best detected face
(None when no face is detected).  Returns (is_live, confidence, reason). -/
def detect_liveness (lap_var : ℝ) (best_face_conf : Option ℝ) : Bool × ℝ × String :=
  if lap_var < 30 then (false, 0.3, "Image too blurry")
  else if lap_var > 8000 then (false, 0.4, "Image too sharp (printed photo?)")
  else
    match best_face_conf with
    | none => (false, 0.2, "No face detected")
    | some confidence =>
      if confidence < 0.7 then (false, confidence, "Low face detection confidence")
      else (true, max 0.85 confidence, "Live face detected")

end

/-! ### Theorems: DirectionTracker (C6, C7, C8) -/

theorem appendBounded_of_le (K : ℕ) (w : List ℚ) (x : ℚ) (h : w.length + 1 ≤ K) :
    appendBounded K w x = w ++ [x] := by
  unfold appendBounded
  rw [if_neg]
  simp only [List.length_append, List.length_cons, List.length_nil]
  omega

theorem runSteps_all_none (K : ℕ) (flip : Bool) :
    ∀ (xs w : List ℚ), w.length + xs.length < K →
      (runSteps K flip w xs).1 = xs.map (fun _ => none) ∧
      (runSteps K flip w xs).2.length = w.length + xs.length
  | [], w, _ => by simp [runSteps]
  | x :: xs, w, h => by
    have hlist : (x :: xs).length = xs.length + 1 := rfl
    rw [hlist] at h
    have hlen : w.length + 1 ≤ K := by omega
    have hK : (w ++ [x]).length < K := by
      simp only [List.length_append, List.length_cons, List.length_nil]
      omega
    have hstep : stepWindow K flip w x = (none, w ++ [x]) := by
      simp only [stepWindow, appendBounded_of_le K w x hlen]
      rw [if_pos hK]
    have ih := runSteps_all_none K flip xs (w ++ [x])
      (by simp only [List.length_append, List.length_cons, List.length_nil]; omega)
    refine ⟨?_, ?_⟩
    · simp only [runSteps, hstep, List.map_cons]
      rw [ih.1]
    · simp only [runSteps, hstep]
      rw [ih.2]
      simp only [List.length_append, List.length_cons, List.length_nil]
      omega

theorem runTracker_eq_runSteps (id : String) (width : ℚ) :
    ∀ (cxs : List ℚ) (t : DirectionTracker),
      runTracker t id width cxs =
        (runSteps DIRECTION_FRAMES t.flip (t.positions id) (cxs.map fun cx => cx / width)).1
  | [], _ => by simp [runTracker, runSteps]
  | cx :: cxs, t => by
    have ih := runTracker_eq_runSteps id width cxs (t.update id cx width).2
    simp only [runTracker, List.map_cons, runSteps]
    rw [ih]
    simp [DirectionTracker.update]

/-- C8: the first K-1 calls to the direction update return none regardless
of the position values supplied, for any window capacity K at least 1; in
particular (K = DIRECTION_FRAMES = 3, through DirectionTracker.update) a
fresh tracker returns none on every call of any sequence of at most two
positions for an identity. -/
theorem update_first_pre_window_calls_none (K : ℕ) (flip : Bool) (xs : List ℚ)
    (id : String) (width : ℚ) (cxs : List ℚ)
    (hK : 1 ≤ K) (hlen : xs.length ≤ K - 1) (hcxs : cxs.length ≤ DIRECTION_FRAMES - 1) :
    (runSteps K flip [] xs).1 = xs.map (fun _ => none) ∧
    runTracker (freshTracker flip) id width cxs = cxs.map (fun _ => none) := by
  refine ⟨(runSteps_all_none K flip xs [] (by simp; omega)).1, ?_⟩
  rw [runTracker_eq_runSteps]
  have h3 : (1 : ℕ) ≤ DIRECTION_FRAMES := by norm_num [DIRECTION_FRAMES]
  have hlt : ([] : List ℚ).length + (cxs.map fun cx => cx / width).length < DIRECTION_FRAMES := by
    simp only [List.length_nil, List.length_map]
    omega
  have := (runSteps_all_none DIRECTION_FRAMES flip (cxs.map fun cx => cx / width) [] hlt).1
  simp only [freshTracker]
  rw [this, List.map_map]
  rfl

theorem update_first_pre_window_calls_none_witness :
    (runSteps DIRECTION_FRAMES false [] [(5 : ℚ), 7]).1 = [none, none] ∧
    runTracker (freshTracker false) "s" 640 [(5 : ℚ), 7] = [none, none] := by
  have h := update_first_pre_window_calls_none DIRECTION_FRAMES false [(5 : ℚ), 7]
    "s" 640 [(5 : ℚ), 7] (by norm_num [DIRECTION_FRAMES]) (by norm_num [DIRECTION_FRAMES])
    (by norm_num [DIRECTION_FRAMES])
  simpa using h

/-- C7: for a fresh identity at frame width 640, the center sequence
[64, 320, 576] (normalized positions [0.1, 0.5, 0.9]) yields ENTRY on the
third update with flip = false and EXIT with flip = true; the reversed
sequence yields EXIT with flip = false and ENTRY with flip = true. -/
theorem update_direction_sequences :
    runTracker (freshTracker false) "s" 640 [64, 320, 576] =
      [none, none, some Direction.ENTRY] ∧
    runTracker (freshTracker false) "s" 640 [576, 320, 64] =
      [none, none, some Direction.EXIT] ∧
    runTracker (freshTracker true) "s" 640 [64, 320, 576] =
      [none, none, some Direction.EXIT] ∧
    runTracker (freshTracker true) "s" 640 [576, 320, 64] =
      [none, none, some Direction.ENTRY] := by
  refine ⟨?_, ?_, ?_, ?_⟩ <;>
    norm_num [runTracker, DirectionTracker.update, stepWindow, appendBounded, freshTracker,
      DIRECTION_FRAMES, abs_lt]

/-- C6: when the appended window is full (length DIRECTION_FRAMES) but the
newest-minus-oldest displacement is below 0.12 in absolute value,
DirectionTracker.update returns none and keeps the slid window: the
identity's buffered positions are exactly the appended window, not
cleared. -/
theorem update_below_min_displacement_keeps_window
    (t : DirectionTracker) (id : String) (cx fw : ℚ)
    (hlen : (appendBounded DIRECTION_FRAMES (t.positions id) (cx / fw)).length =
      DIRECTION_FRAMES)
    (hdelta : |(appendBounded DIRECTION_FRAMES (t.positions id) (cx / fw)).getLastD 0 -
        (appendBounded DIRECTION_FRAMES (t.positions id) (cx / fw)).headD 0| < 0.12) :
    (t.update id cx fw).1 = none ∧
    (t.update id cx fw).2.positions id =
      appendBounded DIRECTION_FRAMES (t.positions id) (cx / fw) := by
  have h1 : ¬ (appendBounded DIRECTION_FRAMES (t.positions id) (cx / fw)).length <
      DIRECTION_FRAMES := by
    rw [hlen]
    exact lt_irrefl _
  simp only [DirectionTracker.update, stepWindow]
  rw [if_neg h1, if_pos hdelta]
  exact ⟨rfl, by simp⟩

theorem update_below_min_displacement_keeps_window_witness :
    ((((freshTracker false).update "s" (2/5) 1).2.update "s" (11/25) 1).2.update
        "s" (23/50) 1).1 = none ∧
    ((((freshTracker false).update "s" (2/5) 1).2.update "s" (11/25) 1).2.update
        "s" (23/50) 1).2.positions "s" = [2/5, 11/25, 23/50] := by
  have h := update_below_min_displacement_keeps_window
    ((((freshTracker false).update "s" (2/5) 1).2.update "s" (11/25) 1).2)
    "s" (23/50) 1
    (by norm_num [DirectionTracker.update, stepWindow, appendBounded, freshTracker,
      DIRECTION_FRAMES, abs_lt])
    (by norm_num [DirectionTracker.update, stepWindow, appendBounded, freshTracker,
      DIRECTION_FRAMES, abs_lt])
  refine ⟨h.1, ?_⟩
  rw [h.2]
  norm_num [DirectionTracker.update, stepWindow, appendBounded, freshTracker,
    DIRECTION_FRAMES, abs_lt]

/-! ### Theorems: post_event cooldown (C1) -/

/-- C1 counterexample: the cooldown is keyed by identity only, not by
(identity, event type).  Starting from an empty table, ENTRY at t = 0 is
emitted; an ENTRY retried at t = 6 (within the 10 s cooldown of the ENTRY
at 0) is suppressed, but if an EXIT is emitted in between at t = 5 the
same ENTRY at t = 6 is emitted: the outcome does not depend only on the
most recent non-suppressed event of the same type. -/
theorem post_event_not_per_type_independent :
    (post_event (post_event (post_event (fun _ => none) "s" Direction.ENTRY 0).2
        "s" Direction.EXIT 5).2 "s" Direction.ENTRY 6).1 = true ∧
    (post_event (post_event (fun _ => none) "s" Direction.ENTRY 0).2
        "s" Direction.ENTRY 6).1 = false := by
  have e1 : (post_event (fun _ => none) "s" Direction.ENTRY 0).2 =
      fun id => if id = "s" then some (Direction.ENTRY, 0) else none := by
    simp only [post_event]
  have e2 : (post_event (fun id => if id = "s" then some (Direction.ENTRY, 0) else none)
        "s" Direction.EXIT 5).2 =
      fun id => if id = "s" then some (Direction.EXIT, 5)
        else if id = "s" then some (Direction.ENTRY, 0) else none := by
    simp [post_event, COOLDOWN_SECS]
  constructor
  · rw [e1, e2]
    simp [post_event, COOLDOWN_SECS]
  · rw [e1]
    simp [post_event, COOLDOWN_SECS]
    norm_num

/-- C1 amended: suppression is decided by the single most recent emitted
record for the identity, of whichever type: an event is suppressed iff
that record exists, has the same event type, and lies within
COOLDOWN_SECS; an event whose type differs from the stored record (in
particular an EXIT right after an emitted ENTRY) is never suppressed; on
emission the record is overwritten with the new (type, timestamp) and on
suppression the table is unchanged. -/
theorem post_event_suppression_characterization
    (m : String → Option (Direction × ℚ)) (id : String) (ty : Direction) (now : ℚ) :
    ((post_event m id ty now).1 = false ↔
      ∃ lt, m id = some (ty, lt) ∧ now - lt < COOLDOWN_SECS) ∧
    (∀ lty lt, m id = some (lty, lt) → lty ≠ ty → (post_event m id ty now).1 = true) ∧
    ((post_event m id ty now).1 = true → (post_event m id ty now).2 id = some (ty, now)) ∧
    ((post_event m id ty now).1 = false → (post_event m id ty now).2 = m) := by
  rcases hm : m id with _ | ⟨lty, lt⟩
  · have h1 : post_event m id ty now =
        (true, fun i => if i = id then some (ty, now) else m i) := by
      simp only [post_event, hm]
    rw [h1]
    refine ⟨by simp [hm], fun _ _ _ _ => rfl, fun _ => by simp, fun h => absurd h (by simp)⟩
  · by_cases hc : lty = ty ∧ now - lt < COOLDOWN_SECS
    · have h1 : post_event m id ty now = (false, m) := by
        simp only [post_event, hm]
        rw [if_pos hc]
      rw [h1]
      refine ⟨⟨fun _ => ⟨lt, by rw [hc.1], hc.2⟩, fun _ => rfl⟩, ?_,
        fun h => absurd h (by simp), fun _ => rfl⟩
      intro lty2 lt2 hsome hne
      simp only [Option.some.injEq, Prod.mk.injEq] at hsome
      exact absurd (hsome.1 ▸ hc.1) hne
    · have h1 : post_event m id ty now =
          (true, fun i => if i = id then some (ty, now) else m i) := by
        simp only [post_event, hm]
        rw [if_neg hc]
      rw [h1]
      refine ⟨?_, fun _ _ _ _ => rfl, fun _ => by simp, fun h => absurd h (by simp)⟩
      constructor
      · intro h
        exact absurd h (by simp)
      · rintro ⟨lt2, hsome, hlt2⟩
        simp only [Option.some.injEq, Prod.mk.injEq] at hsome
        exact absurd ⟨hsome.1, hsome.2 ▸ hlt2⟩ hc

theorem post_event_suppression_characterization_witness :
    (post_event (fun i => if i = "s" then some (Direction.ENTRY, 0) else none)
        "s" Direction.EXIT 1).1 = true := by
  have h := (post_event_suppression_characterization
      (fun i => if i = "s" then some (Direction.ENTRY, 0) else none)
      "s" Direction.EXIT 1).2.1
  exact h Direction.ENTRY 0 (by simp) (by decide)

/-! ### Theorems: match_score (C3, C5) -/

theorem dotp_cons (x y : ℝ) (xs ys : List ℝ) :
    dotp (x :: xs) (y :: ys) = x * y + dotp xs ys := rfl

theorem dotp_map_div (a b : ℝ) : ∀ (v w : List ℝ),
    dotp (v.map fun x => x / a) (w.map fun x => x / b) = dotp v w / (a * b)
  | [], w => by simp [dotp]
  | v :: vs, [] => by simp [dotp]
  | x :: xs, y :: ys => by
    simp only [List.map_cons, dotp_cons]
    rw [dotp_map_div a b xs ys, div_mul_div_comm, add_div]

/-- match_score computes exactly cosineSim in its non-zero branch: the dot
product of the two normalised vectors equals the raw dot product divided by
the product of the norms. -/
theorem match_score_eq (v w : List ℝ) :
    match_score v w =
      if l2norm v = 0 ∨ l2norm w = 0 then ⟨0, 99, false, 0⟩
      else ⟨cosineSim v w, l2norm (List.zipWith (fun a b => a - b) v w),
        decide (cosineSim v w ≥ COSINE_THRESHOLD), cosineSim v w⟩ := by
  unfold match_score cosineSim
  rw [dotp_map_div]

/-- C3: the acceptance boundary is inclusive: a pair of embeddings whose
cosine similarity is exactly COSINE_THRESHOLD is reported as a match, and a
pair whose similarity is below the threshold is reported as a non-match. -/
theorem match_score_threshold_boundary (v w : List ℝ) :
    (cosineSim v w = COSINE_THRESHOLD → (match_score v w).is_match = true) ∧
    (cosineSim v w < COSINE_THRESHOLD → (match_score v w).is_match = false) := by
  rw [match_score_eq]
  by_cases h : l2norm v = 0 ∨ l2norm w = 0
  · rw [if_pos h]
    have hz : l2norm v * l2norm w = 0 := by
      rcases h with h | h <;> simp [h]
    constructor
    · intro hc
      rw [cosineSim, hz, div_zero] at hc
      exact absurd hc.symm (by norm_num [COSINE_THRESHOLD])
    · intro _
      rfl
  · rw [if_neg h]
    constructor
    · intro hc
      show decide (cosineSim v w ≥ COSINE_THRESHOLD) = true
      exact decide_eq_true (le_of_eq hc.symm)
    · intro hc
      show decide (cosineSim v w ≥ COSINE_THRESHOLD) = false
      exact decide_eq_false (not_le.mpr hc)

theorem match_score_threshold_boundary_witness :
    cosineSim [(1:ℝ), 0] [0.363, Real.sqrt (1 - 0.363 ^ 2)] = COSINE_THRESHOLD ∧
    (match_score [(1:ℝ), 0] [0.363, Real.sqrt (1 - 0.363 ^ 2)]).is_match = true := by
  have hs : Real.sqrt (1 - 0.363 ^ 2) * Real.sqrt (1 - 0.363 ^ 2) = 1 - 0.363 ^ 2 :=
    Real.mul_self_sqrt (by norm_num)
  have h1 : l2norm [(1:ℝ), 0] = 1 := by
    simp [l2norm, sumsq]
  have h2 : l2norm [(0.363:ℝ), Real.sqrt (1 - 0.363 ^ 2)] = 1 := by
    simp only [l2norm, sumsq, List.map_cons, List.map_nil, List.sum_cons, List.sum_nil]
    rw [hs, show (0.363:ℝ) * 0.363 + (1 - 0.363 ^ 2 + 0) = 1 by norm_num]
    exact Real.sqrt_one
  have hc : cosineSim [(1:ℝ), 0] [0.363, Real.sqrt (1 - 0.363 ^ 2)] = COSINE_THRESHOLD := by
    rw [cosineSim, h1, h2]
    simp [dotp, COSINE_THRESHOLD]
  exact ⟨hc, (match_score_threshold_boundary _ _).1 hc⟩

/-- C5: a pair of embeddings of which at least one has zero L2 norm is
reported as a non-match with cosine score 0.0, l2 distance 99.0 and
confidence 0.0: the zero-norm branch short-circuits before any division. -/
theorem match_score_zero_norm (v w : List ℝ) (h : l2norm v = 0 ∨ l2norm w = 0) :
    match_score v w = ⟨0, 99, false, 0⟩ := by
  rw [match_score_eq, if_pos h]

theorem match_score_zero_norm_witness :
    match_score [(0:ℝ)] [(1:ℝ)] = ⟨0, 99, false, 0⟩ :=
  match_score_zero_norm _ _ (Or.inl (by simp [l2norm, sumsq]))

/-! ### Theorems: detect_liveness (C9) -/

/-- C9: the liveness gate passes exactly when the Laplacian variance lies
in [30, 8000], a best face was detected, and its detector confidence is at
least 0.7 (so it rejects too-blurry images, too-sharp images, images with
no detected face, and low-confidence detections); on a pass the reported
confidence is max 0.85 the detector confidence. -/
theorem detect_liveness_spec (l : ℝ) (f : Option ℝ) :
    ((detect_liveness l f).1 = true ↔ ∃ c, f = some c ∧ 30 ≤ l ∧ l ≤ 8000 ∧ 0.7 ≤ c) ∧
    (∀ c, f = some c → (detect_liveness l f).1 = true →
      (detect_liveness l f).2.1 = max 0.85 c) := by
  unfold detect_liveness
  by_cases h1 : l < 30
  · rw [if_pos h1]
    refine ⟨⟨fun h => absurd h (by simp), ?_⟩, fun c hc h => absurd h (by simp)⟩
    rintro ⟨c, _, h30, _, _⟩
    exact absurd h1 (not_lt.mpr h30)
  · rw [if_neg h1]
    by_cases h2 : l > 8000
    · rw [if_pos h2]
      refine ⟨⟨fun h => absurd h (by simp), ?_⟩, fun c hc h => absurd h (by simp)⟩
      rintro ⟨c, _, _, h8000, _⟩
      exact absurd h2 (not_lt.mpr h8000)
    · rw [if_neg h2]
      rcases f with _ | c
      · refine ⟨⟨fun h => absurd h (by simp), ?_⟩, fun c hc _ => absurd hc (by simp)⟩
        rintro ⟨c, hc, _⟩
        exact absurd hc (by simp)
      · dsimp only
        by_cases h3 : c < 0.7
        · rw [if_pos h3]
          refine ⟨⟨fun h => absurd h (by simp), ?_⟩, fun c2 hc2 h => absurd h (by simp)⟩
          rintro ⟨c2, hc2, _, _, h07⟩
          simp only [Option.some.injEq] at hc2
          exact absurd h3 (not_lt.mpr (hc2 ▸ h07))
        · rw [if_neg h3]
          refine ⟨⟨fun _ => ⟨c, rfl, not_lt.mp h1, not_lt.mp h2, not_lt.mp h3⟩,
            fun _ => rfl⟩, ?_⟩
          intro c2 hc2 _
          simp only [Option.some.injEq] at hc2
          subst hc2
          rfl

theorem detect_liveness_spec_witness :
    (detect_liveness 100 (some 0.9)).1 = true ∧
    (detect_liveness 100 (some 0.9)).2.1 = max 0.85 0.9 := by
  have h := detect_liveness_spec 100 (some 0.9)
  have hpass : (detect_liveness 100 (some (0.9:ℝ))).1 = true :=
    h.1.mpr ⟨0.9, rfl, by norm_num, by norm_num, by norm_num⟩
  exact ⟨hpass, h.2 0.9 rfl hpass⟩

/-! ### Theorems: the best-match loop and identify-group (C2, C4, C10) -/

theorem is_match_le_score (v w : List ℝ) (h : (match_score v w).is_match = true) :
    COSINE_THRESHOLD ≤ (match_score v w).cosine_score := by
  rw [match_score_eq] at h ⊢
  by_cases hz : l2norm v = 0 ∨ l2norm w = 0
  · rw [if_pos hz] at h
    exact absurd h (by simp)
  · rw [if_neg hz] at h ⊢
    exact of_decide_eq_true h

theorem foldl_bestStep_keep (emb : List ℝ) :
    ∀ (l : List DBUser) (acc : Option DBUser × ℝ),
      (∀ v ∈ l, (match_score v.embedding emb).cosine_score ≤ acc.2) →
      List.foldl (bestStep emb) acc l = acc
  | [], _, _ => rfl
  | v :: vs, acc, h => by
    have hv := h v (List.mem_cons_self v vs)
    have hstep : bestStep emb acc v = acc := by
      unfold bestStep
      rw [if_neg]
      rintro ⟨_, hgt⟩
      exact absurd hv (not_le.mpr hgt)
    rw [List.foldl_cons, hstep]
    exact foldl_bestStep_keep emb vs acc (fun u hu => h u (List.mem_cons_of_mem _ hu))

theorem foldl_bestStep_lt (emb : List ℝ) (c : ℝ) :
    ∀ (l : List DBUser) (acc : Option DBUser × ℝ),
      acc.2 < c →
      (∀ v ∈ l, (match_score v.embedding emb).cosine_score < c) →
      (List.foldl (bestStep emb) acc l).2 < c
  | [], _, hacc, _ => hacc
  | v :: vs, acc, hacc, h => by
    rw [List.foldl_cons]
    apply foldl_bestStep_lt emb c vs _ _ (fun u hu => h u (List.mem_cons_of_mem _ hu))
    unfold bestStep
    split
    · exact h v (List.mem_cons_self v vs)
    · exact hacc

/-- C4: when the pool splits as pre ++ u :: post where u is a matching
candidate, every earlier candidate scores strictly below u and every later
candidate scores at most u (so u is the first candidate attaining the
maximum), the scan returns u with its score: a later candidate with an
equal score never displaces u, because the loop only replaces the best on
a strictly greater score. -/
theorem findBest_first_of_ties (pre post : List DBUser) (u : DBUser) (emb : List ℝ)
    (hu : (match_score u.embedding emb).is_match = true)
    (hpre : ∀ v ∈ pre, (match_score v.embedding emb).cosine_score <
      (match_score u.embedding emb).cosine_score)
    (hpost : ∀ v ∈ post, (match_score v.embedding emb).cosine_score ≤
      (match_score u.embedding emb).cosine_score) :
    findBest (pre ++ u :: post) emb = (some u, (match_score u.embedding emb).cosine_score) := by
  have hupos : (0:ℝ) < (match_score u.embedding emb).cosine_score :=
    lt_of_lt_of_le (by norm_num [COSINE_THRESHOLD]) (is_match_le_score _ _ hu)
  unfold findBest
  rw [List.foldl_append]
  have hlt : (List.foldl (bestStep emb) (none, 0) pre).2 <
      (match_score u.embedding emb).cosine_score :=
    foldl_bestStep_lt emb _ pre (none, 0) hupos hpre
  rw [List.foldl_cons]
  have hstep : bestStep emb (List.foldl (bestStep emb) (none, 0) pre) u =
      (some u, (match_score u.embedding emb).cosine_score) := by
    unfold bestStep
    rw [if_pos ⟨hu, hlt⟩]
  rw [hstep]
  exact foldl_bestStep_keep emb post _ hpost

theorem l2norm_single_one : l2norm [(1:ℝ)] = 1 := by
  simp [l2norm, sumsq]

theorem l2norm_single_two : l2norm [(2:ℝ)] = 2 := by
  simp only [l2norm, sumsq, List.map_cons, List.map_nil, List.sum_cons, List.sum_nil, add_zero]
  rw [show (2:ℝ) * 2 = 2 ^ 2 by norm_num]
  exact Real.sqrt_sq (by norm_num)

theorem mscore_one_one : match_score [(1:ℝ)] [(1:ℝ)] = ⟨1, 0, true, 1⟩ := by
  rw [match_score_eq, if_neg]
  · have hc : cosineSim [(1:ℝ)] [(1:ℝ)] = 1 := by
      rw [cosineSim, l2norm_single_one]
      simp [dotp]
    have hl : l2norm (List.zipWith (fun a b => a - b) [(1:ℝ)] [(1:ℝ)]) = 0 := by
      simp [l2norm, sumsq]
    rw [hc, hl, decide_eq_true (show (1:ℝ) ≥ COSINE_THRESHOLD by norm_num [COSINE_THRESHOLD])]
  · rw [l2norm_single_one]
    norm_num

theorem mscore_two_one : match_score [(2:ℝ)] [(1:ℝ)] = ⟨1, 1, true, 1⟩ := by
  rw [match_score_eq, if_neg]
  · have hc : cosineSim [(2:ℝ)] [(1:ℝ)] = 1 := by
      rw [cosineSim, l2norm_single_two, l2norm_single_one]
      norm_num [dotp]
    have hl : l2norm (List.zipWith (fun a b => a - b) [(2:ℝ)] [(1:ℝ)]) = 1 := by
      norm_num [l2norm, sumsq]
    rw [hc, hl, decide_eq_true (show (1:ℝ) ≥ COSINE_THRESHOLD by norm_num [COSINE_THRESHOLD])]
  · rw [l2norm_single_two, l2norm_single_one]
    norm_num

theorem findBest_pair :
    findBest [⟨"id1", "Alice", [(1:ℝ)]⟩, ⟨"id2", "Bekka", [(2:ℝ)]⟩] [(1:ℝ)] =
      (some ⟨"id1", "Alice", [(1:ℝ)]⟩, 1) := by
  have h1 : bestStep [(1:ℝ)] (none, 0) ⟨"id1", "Alice", [(1:ℝ)]⟩ =
      (some ⟨"id1", "Alice", [(1:ℝ)]⟩, 1) := by
    simp only [bestStep, mscore_one_one]
    norm_num
  have h2 : bestStep [(1:ℝ)] (some ⟨"id1", "Alice", [(1:ℝ)]⟩, 1) ⟨"id2", "Bekka", [(2:ℝ)]⟩ =
      (some ⟨"id1", "Alice", [(1:ℝ)]⟩, 1) := by
    simp only [bestStep, mscore_two_one]
    norm_num
  unfold findBest
  rw [List.foldl_cons, h1, List.foldl_cons, h2, List.foldl_nil]

theorem findBest_first_of_ties_witness :
    findBest [⟨"id1", "Alice", [(1:ℝ)]⟩, ⟨"id2", "Bekka", [(2:ℝ)]⟩] [(1:ℝ)] =
      (some ⟨"id1", "Alice", [(1:ℝ)]⟩, 1) := by
  have h := findBest_first_of_ties [] [⟨"id2", "Bekka", [(2:ℝ)]⟩]
    ⟨"id1", "Alice", [(1:ℝ)]⟩ [(1:ℝ)]
    (by simp [mscore_one_one])
    (by simp)
    (by intro v hv; simp only [List.mem_singleton] at hv; subst hv; simp [mscore_one_one, mscore_two_one])
  simpa [mscore_one_one] using h

/-- C2 counterexample: three detected faces matched against a pool of two
enrolled identities can produce three match records (each face is matched
independently and the same identity may be assigned to several faces), so
the matches list can exceed the pool size. -/
theorem identify_group_three_matches_from_pool_of_two :
    (identify_group [⟨"id1", "Alice", [(1:ℝ)]⟩, ⟨"id2", "Bekka", [(2:ℝ)]⟩]
        [⟨[(1:ℝ)], []⟩, ⟨[(1:ℝ)], []⟩, ⟨[(1:ℝ)], []⟩]).length = 3 ∧
    ([⟨"id1", "Alice", [(1:ℝ)]⟩, ⟨"id2", "Bekka", [(2:ℝ)]⟩] : List DBUser).length = 2 := by
  refine ⟨?_, rfl⟩
  simp [identify_group, findBest_pair]

/-- C2 amended: group identification produces at most one match record per
detected face, so the matches list is never longer than the list of
detected faces (the pool size does not bound it, as the counterexample
shows). -/
theorem identify_group_length_le_probes (db : List DBUser) (probes : List Probe) :
    (identify_group db probes).length ≤ probes.length := by
  induction probes with
  | nil => exact Nat.le_refl 0
  | cons p ps ih =>
    rcases h : findBest db p.embedding with ⟨o, s⟩
    rcases o with _ | u
    · simp only [identify_group, h, List.length_cons]
      exact Nat.le_trans ih (Nat.le_succ _)
    · simp only [identify_group, h, List.length_cons]
      exact Nat.succ_le_succ ih

theorem foldl_bestStep_inv (emb : List ℝ) :
    ∀ (l : List DBUser) (acc : Option DBUser × ℝ),
      (acc.1.isSome = true → COSINE_THRESHOLD ≤ acc.2) →
      ((List.foldl (bestStep emb) acc l).1.isSome = true →
        COSINE_THRESHOLD ≤ (List.foldl (bestStep emb) acc l).2)
  | [], _, h => h
  | v :: vs, acc, h => by
    rw [List.foldl_cons]
    apply foldl_bestStep_inv emb vs
    unfold bestStep
    split
    · rename_i hcond
      intro _
      exact is_match_le_score _ _ hcond.1
    · exact h

theorem findBest_some_ge (db : List DBUser) (emb : List ℝ) (u : DBUser) (s : ℝ)
    (h : findBest db emb = (some u, s)) : COSINE_THRESHOLD ≤ s := by
  have hinv := foldl_bestStep_inv emb db (none, 0) (fun hx => by simp at hx)
  rw [findBest] at h
  rw [h] at hinv
  exact hinv rfl

/-- C10: every match record produced by the identify-group loop carries a
confidence at least COSINE_THRESHOLD and strictly greater than 0: a face
whose best score is below the threshold contributes no record, because the
loop only installs a best candidate when is_match holds. -/
theorem identify_group_confidence_bounds (db : List DBUser) (probes : List Probe)
    (m : MatchRecord) (hm : m ∈ identify_group db probes) :
    COSINE_THRESHOLD ≤ m.confidence ∧ 0 < m.confidence := by
  induction probes with
  | nil => simp [identify_group] at hm
  | cons p ps ih =>
    rcases h : findBest db p.embedding with ⟨o, s⟩
    rcases o with _ | u
    · simp only [identify_group, h] at hm
      exact ih hm
    · simp only [identify_group, h, List.mem_cons] at hm
      rcases hm with hm | hm
      · subst hm
        have hθ : COSINE_THRESHOLD ≤ s := findBest_some_ge db p.embedding u s h
        exact ⟨hθ, lt_of_lt_of_le (by norm_num [COSINE_THRESHOLD]) hθ⟩
      · exact ih hm

theorem identify_group_confidence_bounds_witness :
    identify_group [⟨"id1", "Alice", [(1:ℝ)]⟩, ⟨"id2", "Bekka", [(2:ℝ)]⟩]
        [⟨[(1:ℝ)], []⟩] = [⟨"id1", "Alice", 1, []⟩] ∧
    COSINE_THRESHOLD ≤ (⟨"id1", "Alice", 1, []⟩ : MatchRecord).confidence ∧
    0 < (⟨"id1", "Alice", 1, []⟩ : MatchRecord).confidence := by
  have hlist : identify_group [⟨"id1", "Alice", [(1:ℝ)]⟩, ⟨"id2", "Bekka", [(2:ℝ)]⟩]
      [⟨[(1:ℝ)], []⟩] = [⟨"id1", "Alice", 1, []⟩] := by
    simp [identify_group, findBest_pair]
  refine ⟨hlist, ?_⟩
  exact identify_group_confidence_bounds _ _ _ (by rw [hlist]; exact List.mem_singleton.mpr rfl)
